import Mathlib

/-!
Verification of the MLP training core of `neural_networks.py`.

The Python code manipulates numpy 2-D arrays.  We embed a numpy array as a
`Mat`: an explicit row/column count together with an entry function
`ℕ → ℕ → ℝ` (entries outside the stated range are irrelevant junk).  Numpy
operations that can raise a shape error (`np.dot`, broadcast arithmetic,
in-place `-=`) are `Option`-valued: `none` models the `ValueError` that numpy
raises, which propagates out of `forward`/`backward`.

Numpy's global random generator is modelled by an abstract `stream`
function `ℕ → ℕ → ℝ` mapping (seed, position) to the value produced by the
seeded generator at that position, together with an `RNG` cursor (current
seed, current position).  `np.random.seed n` resets the cursor to `(n, 0)`;
`np.random.randn r c` consumes `r*c` successive values.
-/

noncomputable section

namespace NeuralNetworks

/-- A numpy 2-D array: row count, column count, and entries. -/
structure Mat where
  r : ℕ
  c : ℕ
  entry : ℕ → ℕ → ℝ

namespace Mat

/-- Transpose, `A.T` in numpy. -/
def transpose (A : Mat) : Mat :=
  ⟨A.c, A.r, fun i j => A.entry j i⟩

/-- Matrix product `np.dot(A, B)` for 2-D arrays: matrix product, shape error if the inner
dimensions disagree. -/
def dot (A B : Mat) : Option Mat :=
  if A.c = B.r then
    some ⟨A.r, B.c, fun i j => ∑ k ∈ Finset.range A.c, A.entry i k * B.entry k j⟩
  else none

/-- Numpy broadcasting of one dimension: equal sizes, or either side 1. -/
def broadcastDim (a b : ℕ) : Option ℕ :=
  if a = b then some a
  else if a = 1 then some b
  else if b = 1 then some a
  else none

/-- Elementwise binary operation with numpy broadcasting (covers `+`, `-`,
`*` on two arrays).  Indexing via `i % r` realises broadcasting: when a
dimension is 1 the index collapses to 0, and when the dimensions agree the
in-range index is unchanged. -/
def bop (f : ℝ → ℝ → ℝ) (A B : Mat) : Option Mat :=
  match broadcastDim A.r B.r, broadcastDim A.c B.c with
  | some r, some c =>
      some ⟨r, c, fun i j => f (A.entry (i % A.r) (j % A.c)) (B.entry (i % B.r) (j % B.c))⟩
  | _, _ => none

/-- Numpy in-place `A -= B`: the result keeps `A`'s shape, so only `B` may
be broadcast, up to `A`'s shape. -/
def isub (A B : Mat) : Option Mat :=
  if (B.r = A.r ∨ B.r = 1) ∧ (B.c = A.c ∨ B.c = 1) then
    some ⟨A.r, A.c, fun i j => A.entry i j - B.entry (i % B.r) (j % B.c)⟩
  else none

/-- Elementwise map (application of a numpy ufunc / vectorised lambda). -/
def map (f : ℝ → ℝ) (A : Mat) : Mat :=
  ⟨A.r, A.c, fun i j => f (A.entry i j)⟩

/-- Multiplication by a scalar on the left, `s * A`. -/
def smul (s : ℝ) (A : Mat) : Mat :=
  A.map (fun x => s * x)

/-- Elementwise division by a scalar, `A / s`. -/
def divs (A : Mat) (s : ℝ) : Mat :=
  A.map (fun x => x / s)

/-- Columnwise sum `np.sum(A, axis=0, keepdims=True)`, as a 1-row matrix. -/
def sumaxis0 (A : Mat) : Mat :=
  ⟨1, A.c, fun _ j => ∑ i ∈ Finset.range A.r, A.entry i j⟩

end Mat

/-- Zero matrix `np.zeros((r, c))`. -/
def npzeros (r c : ℕ) : Mat :=
  ⟨r, c, fun _ _ => 0⟩

/-- State of numpy's global generator: the seed it was last seeded with and
the number of values consumed since. -/
structure RNG where
  sd : ℕ
  pos : ℕ

/-- Reseeding `np.random.seed(n)`: resets the global generator. -/
def npseed (n : ℕ) : RNG :=
  ⟨n, 0⟩

/-- Drawing `np.random.randn(r, c)` from the abstract seeded stream:
returns the matrix of the next `r*c` values (row-major) and the advanced
generator. -/
def nprandn (stream : ℕ → ℕ → ℝ) (g : RNG) (r c : ℕ) : Mat × RNG :=
  (⟨r, c, fun i j => stream g.sd (g.pos + (i * c + j))⟩, ⟨g.sd, g.pos + r * c⟩)

/-- The tensors `self.z1, self.a1, self.z2, self.a2` cached by `forward`. -/
structure Cache where
  z1 : Mat
  a1 : Mat
  z2 : Mat
  a2 : Mat

/-- The gradient record `self.gradients` stored by `backward`. -/
structure Grads where
  dW1 : Mat
  db1 : Mat
  dW2 : Mat
  db2 : Mat

/-- The fields of an `MLP` instance.  `cache`/`gradients` are `none` before
the first `forward`/`backward` call (in Python the attributes do not exist
yet). -/
structure MLPState where
  lr : ℝ
  activation : ℝ → ℝ
  activation_prime : ℝ → ℝ
  W1 : Mat
  b1 : Mat
  W2 : Mat
  b2 : Mat
  cache : Option Cache
  gradients : Option Grads

/-- The sigmoid lambda `lambda x: 1 / (1 + np.exp(-x))`. -/
def sigmoidFn (x : ℝ) : ℝ :=
  1 / (1 + Real.exp (-x))

/-- Constructor `MLP.__init__(input_dim, hidden_dim, output_dim, lr, activation)`.
Returns the constructed instance (or `none` for the `ValueError` on an
unsupported activation string) together with the global generator state
after the call.  Mirrors the source order: `np.random.seed(0)` first, then
the weight/bias initialisation, then the activation dispatch. -/
def mlpInit (stream : ℕ → ℕ → ℝ) (input_dim hidden_dim output_dim : ℕ) (lr : ℝ)
    (activation : String) (_g : RNG) : Option MLPState × RNG :=
  let g0 := npseed 0
  let w1g1 := nprandn stream g0 input_dim hidden_dim
  let w1 := w1g1.1
  let b1 := npzeros 1 hidden_dim
  let w2g2 := nprandn stream w1g1.2 hidden_dim output_dim
  let w2 := w2g2.1
  let b2 := npzeros 1 output_dim
  if activation = "tanh" then
    (some ⟨lr, Real.tanh, fun x => 1 - Real.tanh x ^ 2, w1, b1, w2, b2, none, none⟩, w2g2.2)
  else if activation = "relu" then
    (some ⟨lr, fun x => max 0 x, fun x => if x > 0 then 1 else 0, w1, b1, w2, b2, none, none⟩,
      w2g2.2)
  else if activation = "sigmoid" then
    (some ⟨lr, sigmoidFn, fun x => sigmoidFn x * (1 - sigmoidFn x), w1, b1, w2, b2, none, none⟩,
      w2g2.2)
  else (none, w2g2.2)

/-- Forward pass `MLP.forward(X)`: computes and caches `z1, a1, z2, a2`
and returns `a2`.  A `none` result models a numpy shape error escaping the
call. -/
def forward (s : MLPState) (X : Mat) : Option (MLPState × Mat) := do
  let xw1 ← X.dot s.W1
  let z1 ← Mat.bop (fun a b => a + b) xw1 s.b1
  let a1 := z1.map s.activation
  let a1w2 ← a1.dot s.W2
  let z2 ← Mat.bop (fun a b => a + b) a1w2 s.b2
  let a2 := z2.map s.activation
  some ({ s with cache := some ⟨z1, a1, z2, a2⟩ }, a2)

/-- Backward pass `MLP.backward(X, y)`: computes the gradients from the cached forward
tensors, applies the in-place gradient-descent update to the four
parameters, and stores the gradient record.  `none` models a numpy shape
error (every such error in the source occurs before the first parameter
update, at lines 53-60, so `none` leaves no partially-updated state
behind). -/
def backward (s : MLPState) (X y : Mat) : Option MLPState := do
  let c ← s.cache
  let m : ℕ := X.r
  let delta2 ← Mat.bop (fun a b => a - b) c.a2 y
  let a1Td2 ← c.a1.transpose.dot delta2
  let dW2 := a1Td2.divs (m : ℝ)
  let db2 := delta2.sumaxis0.divs (m : ℝ)
  let d2W2T ← delta2.dot s.W2.transpose
  let delta1 ← Mat.bop (fun a b => a * b) d2W2T (c.z1.map s.activation_prime)
  let xTd1 ← X.transpose.dot delta1
  let dW1 := xTd1.divs (m : ℝ)
  let db1 := delta1.sumaxis0.divs (m : ℝ)
  let w2n ← s.W2.isub (Mat.smul s.lr dW2)
  let b2n ← s.b2.isub (Mat.smul s.lr db2)
  let w1n ← s.W1.isub (Mat.smul s.lr dW1)
  let b1n ← s.b1.isub (Mat.smul s.lr db1)
  some { s with W2 := w2n, b2 := b2n, W1 := w1n, b1 := b1n,
                gradients := some ⟨dW1, db1, dW2, db2⟩ }

/-- Entrywise value of the output-layer error `delta2 = self.a2 - y`
computed at line 53, including numpy's row broadcast of `y` (an in-range
description for row `k < a2.r`, column `j < a2.c`). -/
def bdelta2 (cc : Cache) (y : Mat) (k j : ℕ) : ℝ :=
  cc.a2.entry k j - y.entry (k % y.r) j

/-- Entrywise value of the hidden-layer error
`delta1 = np.dot(delta2, self.W2.T) * self.activation_prime(self.z1)`
computed at line 58 (in-range description). -/
def bdelta1 (s : MLPState) (cc : Cache) (y : Mat) (k j : ℕ) : ℝ :=
  (∑ l ∈ Finset.range s.W2.c, bdelta2 cc y k l * s.W2.entry j l) *
    s.activation_prime (cc.z1.entry k j)

/-! Spec-side gradient formulas, written from the specification's words for
the refinement claim about `backward`: `delta2 = A2 - y`,
`dW2 = A1^T . delta2 / N`, `db2 = columnwise-sum(delta2) / N`,
`delta1 = (delta2 . W2^T) element-times phi'(Z1)`, `dW1 = X^T . delta1 / N`,
`db1 = columnwise-sum(delta1) / N`. -/

/-- Spec formula for the output-layer error `delta2 = A2 - y`. -/
def specDelta2 (cc : Cache) (y : Mat) (k j : ℕ) : ℝ :=
  cc.a2.entry k j - y.entry k j

/-- Spec formula `dW2 = A1^T . delta2 / N`. -/
def specDW2 (cc : Cache) (y : Mat) (N a b : ℕ) : ℝ :=
  (∑ k ∈ Finset.range N, cc.a1.entry k a * specDelta2 cc y k b) / (N : ℝ)

/-- Spec formula `db2 = columnwise-sum(delta2) / N`. -/
def specDB2 (cc : Cache) (y : Mat) (N b : ℕ) : ℝ :=
  (∑ k ∈ Finset.range N, specDelta2 cc y k b) / (N : ℝ)

/-- Spec formula `delta1 = (delta2 . W2^T) element-times phi'(Z1)`, with
the derivative evaluated at the cached pre-activation Z1 and W2 read from
the pre-update parameters. -/
def specDelta1 (s : MLPState) (cc : Cache) (y : Mat) (k j : ℕ) : ℝ :=
  (∑ l ∈ Finset.range s.W2.c, specDelta2 cc y k l * s.W2.entry j l) *
    s.activation_prime (cc.z1.entry k j)

/-- Spec formula `dW1 = X^T . delta1 / N`. -/
def specDW1 (s : MLPState) (cc : Cache) (X y : Mat) (N a b : ℕ) : ℝ :=
  (∑ k ∈ Finset.range N, X.entry k a * specDelta1 s cc y k b) / (N : ℝ)

/-- Spec formula `db1 = columnwise-sum(delta1) / N`. -/
def specDB1 (s : MLPState) (cc : Cache) (y : Mat) (N b : ℕ) : ℝ :=
  (∑ k ∈ Finset.range N, specDelta1 s cc y k b) / (N : ℝ)

/-! Concrete sample data used by the witness theorems: a 2-2-1 network with
zero parameters, identity activation and constant derivative, batch size 2. -/

/-- A concrete network state (input_dim 2, hidden_dim 2, output_dim 1). -/
def sampleNet : MLPState :=
  ⟨1, fun x => x, fun _x => 1, npzeros 2 2, npzeros 1 2, npzeros 2 1, npzeros 1 1, none, none⟩

/-- The sample network with a populated forward cache for batch size 2. -/
def sampleNetC : MLPState :=
  { sampleNet with cache := some ⟨npzeros 2 2, npzeros 2 2, npzeros 2 1, npzeros 2 1⟩ }

/-! Basic lemmas about the numpy operation models. -/

theorem Mat.dot_eq (A B : Mat) (h : A.c = B.r) :
    A.dot B = some ⟨A.r, B.c, fun i j => ∑ k ∈ Finset.range A.c, A.entry i k * B.entry k j⟩ := by
  simp [Mat.dot, h]

theorem Mat.dot_none (A B : Mat) (h : A.c ≠ B.r) : A.dot B = none := by
  simp [Mat.dot, h]

theorem Mat.broadcastDim_self (a : ℕ) : Mat.broadcastDim a a = some a := by
  simp [Mat.broadcastDim]

theorem Mat.broadcastDim_one_right (a : ℕ) : Mat.broadcastDim a 1 = some a := by
  by_cases h : a = 1 <;> simp [Mat.broadcastDim, h]

theorem Mat.broadcastDim_one_left (a : ℕ) : Mat.broadcastDim 1 a = some a := by
  by_cases h : a = 1 <;> simp [Mat.broadcastDim, h]

theorem Mat.broadcastDim_none (a b : ℕ) (hab : a ≠ b) (ha : a ≠ 1) (hb : b ≠ 1) :
    Mat.broadcastDim a b = none := by
  simp [Mat.broadcastDim, hab, ha, hb]

theorem Mat.bop_eq (f : ℝ → ℝ → ℝ) (A B : Mat) (r c : ℕ)
    (hr : Mat.broadcastDim A.r B.r = some r) (hc : Mat.broadcastDim A.c B.c = some c) :
    Mat.bop f A B =
      some ⟨r, c, fun i j => f (A.entry (i % A.r) (j % A.c)) (B.entry (i % B.r) (j % B.c))⟩ := by
  unfold Mat.bop
  rw [hr, hc]

theorem Mat.bop_none_rows (f : ℝ → ℝ → ℝ) (A B : Mat)
    (hr : Mat.broadcastDim A.r B.r = none) : Mat.bop f A B = none := by
  unfold Mat.bop
  rw [hr]

theorem Mat.isub_eq (A B : Mat) (h : (B.r = A.r ∨ B.r = 1) ∧ (B.c = A.c ∨ B.c = 1)) :
    A.isub B = some ⟨A.r, A.c, fun i j => A.entry i j - B.entry (i % B.r) (j % B.c)⟩ := by
  unfold Mat.isub
  rw [if_pos h]

/-! Forward pass: success with explicit cache contents, and the frame
property (no field other than the cache is written). -/

theorem forward_eq (s : MLPState) (X : Mat)
    (hXc : X.c = s.W1.r) (hb1r : s.b1.r = 1) (hb1c : s.b1.c = s.W1.c)
    (hW2r : s.W2.r = s.W1.c) (hb2r : s.b2.r = 1) (hb2c : s.b2.c = s.W2.c) :
    ∃ cc : Cache, forward s X = some ({ s with cache := some cc }, cc.a2) ∧
      cc.z1.r = X.r ∧ cc.z1.c = s.W1.c ∧
      cc.a1.r = X.r ∧ cc.a1.c = s.W1.c ∧
      cc.z2.r = X.r ∧ cc.z2.c = s.W2.c ∧
      cc.a2.r = X.r ∧ cc.a2.c = s.W2.c ∧
      (∀ i j, i < X.r → j < s.W1.c →
        cc.z1.entry i j =
          (∑ k ∈ Finset.range X.c, X.entry i k * s.W1.entry k j) + s.b1.entry 0 j) ∧
      (∀ i j, cc.a1.entry i j = s.activation (cc.z1.entry i j)) ∧
      (∀ i j, i < X.r → j < s.W2.c →
        cc.z2.entry i j =
          (∑ k ∈ Finset.range s.W2.r, cc.a1.entry i k * s.W2.entry k j) + s.b2.entry 0 j) ∧
      (∀ i j, cc.a2.entry i j = s.activation (cc.z2.entry i j)) := by
  have h1 : X.dot s.W1 =
      some ⟨X.r, s.W1.c, fun i j => ∑ k ∈ Finset.range X.c, X.entry i k * s.W1.entry k j⟩ :=
    Mat.dot_eq X s.W1 hXc
  set XW1 : Mat :=
    ⟨X.r, s.W1.c, fun i j => ∑ k ∈ Finset.range X.c, X.entry i k * s.W1.entry k j⟩ with hXW1
  have hbr1 : Mat.broadcastDim XW1.r s.b1.r = some X.r := by
    rw [hb1r]; exact Mat.broadcastDim_one_right X.r
  have hbc1 : Mat.broadcastDim XW1.c s.b1.c = some s.W1.c := by
    rw [hb1c]; exact Mat.broadcastDim_self s.W1.c
  have h2 : Mat.bop (fun a b => a + b) XW1 s.b1 =
      some ⟨X.r, s.W1.c, fun i j =>
        XW1.entry (i % XW1.r) (j % XW1.c) + s.b1.entry (i % s.b1.r) (j % s.b1.c)⟩ :=
    Mat.bop_eq _ XW1 s.b1 X.r s.W1.c hbr1 hbc1
  set Z1 : Mat :=
    ⟨X.r, s.W1.c, fun i j =>
      XW1.entry (i % XW1.r) (j % XW1.c) + s.b1.entry (i % s.b1.r) (j % s.b1.c)⟩ with hZ1
  set A1 : Mat := Z1.map s.activation with hA1
  have h3 : A1.dot s.W2 =
      some ⟨X.r, s.W2.c, fun i j => ∑ k ∈ Finset.range A1.c, A1.entry i k * s.W2.entry k j⟩ :=
    Mat.dot_eq A1 s.W2 (by rw [hW2r]; rfl)
  set A1W2 : Mat :=
    ⟨X.r, s.W2.c, fun i j => ∑ k ∈ Finset.range A1.c, A1.entry i k * s.W2.entry k j⟩ with hA1W2
  have hbr2 : Mat.broadcastDim A1W2.r s.b2.r = some X.r := by
    rw [hb2r]; exact Mat.broadcastDim_one_right X.r
  have hbc2 : Mat.broadcastDim A1W2.c s.b2.c = some s.W2.c := by
    rw [hb2c]; exact Mat.broadcastDim_self s.W2.c
  have h4 : Mat.bop (fun a b => a + b) A1W2 s.b2 =
      some ⟨X.r, s.W2.c, fun i j =>
        A1W2.entry (i % A1W2.r) (j % A1W2.c) + s.b2.entry (i % s.b2.r) (j % s.b2.c)⟩ :=
    Mat.bop_eq _ A1W2 s.b2 X.r s.W2.c hbr2 hbc2
  set Z2 : Mat :=
    ⟨X.r, s.W2.c, fun i j =>
      A1W2.entry (i % A1W2.r) (j % A1W2.c) + s.b2.entry (i % s.b2.r) (j % s.b2.c)⟩ with hZ2
  set A2 : Mat := Z2.map s.activation with hA2
  refine ⟨⟨Z1, A1, Z2, A2⟩, ?_, rfl, rfl, rfl, rfl, rfl, rfl, rfl, rfl, ?_, ?_, ?_, ?_⟩
  · show forward s X = _
    simp only [forward, Option.bind_eq_bind, h1, Option.some_bind, h2, h3, h4]
  · intro i j hi hj
    show XW1.entry (i % XW1.r) (j % XW1.c) + s.b1.entry (i % s.b1.r) (j % s.b1.c) = _
    have : XW1.r = X.r := rfl
    rw [this, hb1r, hb1c, Nat.mod_one, Nat.mod_eq_of_lt hi]
    have : XW1.c = s.W1.c := rfl
    rw [this, Nat.mod_eq_of_lt hj]
  · intro i j; rfl
  · intro i j hi hj
    show A1W2.entry (i % A1W2.r) (j % A1W2.c) + s.b2.entry (i % s.b2.r) (j % s.b2.c) = _
    have : A1W2.r = X.r := rfl
    rw [this, hb2r, hb2c, Nat.mod_one, Nat.mod_eq_of_lt hi]
    have : A1W2.c = s.W2.c := rfl
    rw [this, Nat.mod_eq_of_lt hj]
    have he : A1W2.entry i j = ∑ k ∈ Finset.range s.W2.r, A1.entry i k * s.W2.entry k j := by
      show (∑ k ∈ Finset.range A1.c, A1.entry i k * s.W2.entry k j) = _
      have hac : A1.c = s.W1.c := rfl
      rw [hac, hW2r]
    rw [he]
  · intro i j; rfl

theorem forward_frame_aux (s : MLPState) (X : Mat) (s' : MLPState) (A2 : Mat)
    (h : forward s X = some (s', A2)) :
    s'.W1 = s.W1 ∧ s'.b1 = s.b1 ∧ s'.W2 = s.W2 ∧ s'.b2 = s.b2 ∧
      s'.lr = s.lr ∧ s'.activation = s.activation ∧
      s'.activation_prime = s.activation_prime ∧ s'.gradients = s.gradients := by
  simp only [forward, Option.bind_eq_bind, Option.bind_eq_some] at h
  obtain ⟨xw1, _, h⟩ := h
  obtain ⟨z1, _, h⟩ := h
  obtain ⟨a1w2, _, h⟩ := h
  obtain ⟨z2, _, h⟩ := h
  simp only [Option.some.injEq, Prod.mk.injEq] at h
  obtain ⟨hs, _⟩ := h
  subst hs
  exact ⟨rfl, rfl, rfl, rfl, rfl, rfl, rfl, rfl⟩

/-- C2: for every input matrix X of shape [N x input_dim] with N >= 1,
forward(X) computes Z1 = X.W1 + b1 (bias broadcast over rows), A1 = phi(Z1),
Z2 = A1.W2 + b2, A2 = phi(Z2), applying the same activation function phi at
both the hidden and the output layer, and returns A2. -/
theorem c2_forward_formula (s : MLPState) (X : Mat) (N : ℕ)
    (hN : 1 ≤ N) (hXr : X.r = N) (hXc : X.c = s.W1.r) (hb1r : s.b1.r = 1)
    (hb1c : s.b1.c = s.W1.c) (hW2r : s.W2.r = s.W1.c) (hb2r : s.b2.r = 1)
    (hb2c : s.b2.c = s.W2.c) :
    ∃ s' cc, forward s X = some (s', cc.a2) ∧ s'.cache = some cc ∧
      (∀ i j, i < N → j < s.W1.c →
        cc.z1.entry i j =
          (∑ k ∈ Finset.range X.c, X.entry i k * s.W1.entry k j) + s.b1.entry 0 j) ∧
      (∀ i j, cc.a1.entry i j = s.activation (cc.z1.entry i j)) ∧
      (∀ i j, i < N → j < s.W2.c →
        cc.z2.entry i j =
          (∑ k ∈ Finset.range s.W2.r, cc.a1.entry i k * s.W2.entry k j) + s.b2.entry 0 j) ∧
      (∀ i j, cc.a2.entry i j = s.activation (cc.z2.entry i j)) ∧
      cc.a2.r = N ∧ cc.a2.c = s.W2.c := by
  subst hXr
  obtain ⟨cc, h1, _, _, _, _, _, _, ha2r, ha2c, hz1, ha1, hz2, ha2⟩ :=
    forward_eq s X hXc hb1r hb1c hW2r hb2r hb2c
  exact ⟨_, cc, h1, rfl, hz1, ha1, hz2, ha2, ha2r, ha2c⟩

/-- Witness for C2 at the concrete sample network and a concrete 2x2 input. -/
theorem c2_forward_formula_witness :
    (1:ℕ) ≤ 2 ∧
      ∃ s' cc, forward sampleNet (npzeros 2 2) = some (s', cc.a2) ∧ s'.cache = some cc := by
  refine ⟨by decide, ?_⟩
  obtain ⟨s', cc, h1, h2, _⟩ :=
    c2_forward_formula sampleNet (npzeros 2 2) 2 (by decide) rfl rfl rfl rfl rfl rfl rfl
  exact ⟨s', cc, h1, h2⟩

/-- C8: forward(X) does not mutate any of the four parameters W1, b1, W2, b2,
and has no side effect other than overwriting the cached tensors: the
parameter values (and the learning rate, activation functions and stored
gradient record) after a forward call equal their values before it. -/
theorem c8_forward_pure (s : MLPState) (X : Mat) (s' : MLPState) (A2 : Mat)
    (h : forward s X = some (s', A2)) :
    s'.W1 = s.W1 ∧ s'.b1 = s.b1 ∧ s'.W2 = s.W2 ∧ s'.b2 = s.b2 ∧
      s'.lr = s.lr ∧ s'.activation = s.activation ∧
      s'.activation_prime = s.activation_prime ∧ s'.gradients = s.gradients :=
  forward_frame_aux s X s' A2 h

/-- Witness for C8: a concrete successful forward call whose result state
keeps the parameters. -/
theorem c8_forward_pure_witness :
    ∃ s' A2, forward sampleNet (npzeros 2 2) = some (s', A2) ∧ s'.W1 = sampleNet.W1 := by
  obtain ⟨cc, h1, _⟩ := forward_eq sampleNet (npzeros 2 2) rfl rfl rfl rfl rfl rfl
  exact ⟨_, _, h1, (c8_forward_pure _ _ _ _ h1).1⟩

/-- Master lemma for a successful `backward` call: under consistent shapes
(the cached tensors of a batch of `a2.r` rows, `X` with the same row count,
and `y` whose row count either matches or is 1 and broadcasts), the call
succeeds, and the lemma lists the shapes and in-range entries of the four
stored gradients, the updated parameters, and the untouched fields. -/
theorem backward_eq (s : MLPState) (cc : Cache) (X y : Mat)
    (hc : s.cache = some cc)
    (ha1r : cc.a1.r = cc.a2.r) (hz1r : cc.z1.r = cc.a2.r)
    (ha1c : cc.a1.c = s.W2.r) (hz1c : cc.z1.c = s.W2.r) (ha2c : cc.a2.c = s.W2.c)
    (hyr : y.r = cc.a2.r ∨ y.r = 1) (hyc : y.c = s.W2.c)
    (hXr : X.r = cc.a2.r) (hXc : X.c = s.W1.r) (hW1c : s.W1.c = s.W2.r)
    (hb1c : s.b1.c = s.W2.r) (hb2c : s.b2.c = s.W2.c) :
    ∃ s2 g, backward s X y = some s2 ∧ s2.gradients = some g ∧
      (g.dW1.r = s.W1.r ∧ g.dW1.c = s.W2.r ∧ g.db1.r = 1 ∧ g.db1.c = s.W2.r ∧
        g.dW2.r = s.W2.r ∧ g.dW2.c = s.W2.c ∧ g.db2.r = 1 ∧ g.db2.c = s.W2.c) ∧
      ((∀ a b, a < s.W2.r → b < s.W2.c →
          g.dW2.entry a b =
            (∑ k ∈ Finset.range cc.a2.r, cc.a1.entry k a * bdelta2 cc y k b) / (X.r : ℝ)) ∧
        (∀ b, b < s.W2.c →
          g.db2.entry 0 b = (∑ k ∈ Finset.range cc.a2.r, bdelta2 cc y k b) / (X.r : ℝ)) ∧
        (∀ a b, a < s.W1.r → b < s.W2.r →
          g.dW1.entry a b =
            (∑ k ∈ Finset.range cc.a2.r, X.entry k a * bdelta1 s cc y k b) / (X.r : ℝ)) ∧
        (∀ b, b < s.W2.r →
          g.db1.entry 0 b = (∑ k ∈ Finset.range cc.a2.r, bdelta1 s cc y k b) / (X.r : ℝ))) ∧
      (s2.W1.r = s.W1.r ∧ s2.W1.c = s.W1.c ∧
        (∀ a b, a < s.W1.r → b < s.W1.c →
          s2.W1.entry a b = s.W1.entry a b - s.lr * g.dW1.entry a b) ∧
        s2.b1.r = s.b1.r ∧ s2.b1.c = s.b1.c ∧
        (∀ a b, a < s.b1.r → b < s.b1.c →
          s2.b1.entry a b = s.b1.entry a b - s.lr * g.db1.entry 0 b) ∧
        s2.W2.r = s.W2.r ∧ s2.W2.c = s.W2.c ∧
        (∀ a b, a < s.W2.r → b < s.W2.c →
          s2.W2.entry a b = s.W2.entry a b - s.lr * g.dW2.entry a b) ∧
        s2.b2.r = s.b2.r ∧ s2.b2.c = s.b2.c ∧
        (∀ a b, a < s.b2.r → b < s.b2.c →
          s2.b2.entry a b = s.b2.entry a b - s.lr * g.db2.entry 0 b)) ∧
      (s2.cache = s.cache ∧ s2.lr = s.lr ∧ s2.activation = s.activation ∧
        s2.activation_prime = s.activation_prime) := by
  have hbr2 : Mat.broadcastDim cc.a2.r y.r = some cc.a2.r := by
    rcases hyr with hE | h1
    · rw [hE]; exact Mat.broadcastDim_self _
    · rw [h1]; exact Mat.broadcastDim_one_right _
  have hbc2 : Mat.broadcastDim cc.a2.c y.c = some s.W2.c := by
    rw [ha2c, hyc]; exact Mat.broadcastDim_self _
  set D2 : Mat := ⟨cc.a2.r, s.W2.c, fun i j =>
    cc.a2.entry (i % cc.a2.r) (j % cc.a2.c) - y.entry (i % y.r) (j % y.c)⟩ with hD2def
  have hD2eq : Mat.bop (fun a b => a - b) cc.a2 y = some D2 :=
    Mat.bop_eq _ cc.a2 y cc.a2.r s.W2.c hbr2 hbc2
  have hD2e : ∀ k j, k < cc.a2.r → j < s.W2.c → D2.entry k j = bdelta2 cc y k j := by
    intro k j hk hj
    show cc.a2.entry (k % cc.a2.r) (j % cc.a2.c) - y.entry (k % y.r) (j % y.c) = _
    rw [ha2c, hyc, Nat.mod_eq_of_lt hk, Nat.mod_eq_of_lt hj]
    rfl
  set A1TD2 : Mat := ⟨cc.a1.c, s.W2.c, fun i j =>
    ∑ k ∈ Finset.range cc.a1.r, cc.a1.entry k i * D2.entry k j⟩ with hA1TD2
  have hdot1 : cc.a1.transpose.dot D2 = some A1TD2 := Mat.dot_eq _ _ ha1r
  set DW2 : Mat := A1TD2.divs (X.r : ℝ) with hDW2
  set DB2 : Mat := D2.sumaxis0.divs (X.r : ℝ) with hDB2
  set D2W2T : Mat := ⟨cc.a2.r, s.W2.r, fun i j =>
    ∑ k ∈ Finset.range s.W2.c, D2.entry i k * s.W2.entry j k⟩ with hD2W2T
  have hdot2 : D2.dot s.W2.transpose = some D2W2T := Mat.dot_eq _ _ rfl
  have hbr1 : Mat.broadcastDim D2W2T.r (cc.z1.map s.activation_prime).r = some cc.a2.r := by
    show Mat.broadcastDim cc.a2.r cc.z1.r = some cc.a2.r
    rw [hz1r]; exact Mat.broadcastDim_self _
  have hbc1 : Mat.broadcastDim D2W2T.c (cc.z1.map s.activation_prime).c = some s.W2.r := by
    show Mat.broadcastDim s.W2.r cc.z1.c = some s.W2.r
    rw [hz1c]; exact Mat.broadcastDim_self _
  set D1 : Mat := ⟨cc.a2.r, s.W2.r, fun i j =>
    D2W2T.entry (i % cc.a2.r) (j % s.W2.r) *
      s.activation_prime (cc.z1.entry (i % cc.z1.r) (j % cc.z1.c))⟩ with hD1def
  have hD1eq : Mat.bop (fun a b => a * b) D2W2T (cc.z1.map s.activation_prime) = some D1 :=
    Mat.bop_eq _ _ _ cc.a2.r s.W2.r hbr1 hbc1
  have hD1e : ∀ k j, k < cc.a2.r → j < s.W2.r → D1.entry k j = bdelta1 s cc y k j := by
    intro k j hk hj
    show D2W2T.entry (k % cc.a2.r) (j % s.W2.r) *
        s.activation_prime (cc.z1.entry (k % cc.z1.r) (j % cc.z1.c)) = _
    rw [hz1r, hz1c, Nat.mod_eq_of_lt hk, Nat.mod_eq_of_lt hj]
    unfold bdelta1
    congr 1
    show (∑ l ∈ Finset.range s.W2.c, D2.entry k l * s.W2.entry j l) = _
    exact Finset.sum_congr rfl fun l hl => by
      rw [hD2e k l hk (Finset.mem_range.mp hl)]
  set XTD1 : Mat := ⟨X.c, s.W2.r, fun i j =>
    ∑ k ∈ Finset.range X.r, X.entry k i * D1.entry k j⟩ with hXTD1
  have hdot3 : X.transpose.dot D1 = some XTD1 := Mat.dot_eq _ _ hXr
  set DW1 : Mat := XTD1.divs (X.r : ℝ) with hDW1
  set DB1 : Mat := D1.sumaxis0.divs (X.r : ℝ) with hDB1
  set W2n : Mat := ⟨s.W2.r, s.W2.c, fun i j =>
    s.W2.entry i j - s.lr * DW2.entry (i % cc.a1.c) (j % s.W2.c)⟩ with hW2n
  have hiW2 : s.W2.isub (Mat.smul s.lr DW2) = some W2n :=
    Mat.isub_eq _ _ ⟨Or.inl ha1c, Or.inl rfl⟩
  set B2n : Mat := ⟨s.b2.r, s.b2.c, fun i j =>
    s.b2.entry i j - s.lr * DB2.entry (i % 1) (j % s.W2.c)⟩ with hB2n
  have hib2 : s.b2.isub (Mat.smul s.lr DB2) = some B2n :=
    Mat.isub_eq _ _ ⟨Or.inr rfl, Or.inl hb2c.symm⟩
  set W1n : Mat := ⟨s.W1.r, s.W1.c, fun i j =>
    s.W1.entry i j - s.lr * DW1.entry (i % X.c) (j % s.W2.r)⟩ with hW1n
  have hiW1 : s.W1.isub (Mat.smul s.lr DW1) = some W1n :=
    Mat.isub_eq _ _ ⟨Or.inl hXc, Or.inl hW1c.symm⟩
  set B1n : Mat := ⟨s.b1.r, s.b1.c, fun i j =>
    s.b1.entry i j - s.lr * DB1.entry (i % 1) (j % s.W2.r)⟩ with hB1n
  have hib1 : s.b1.isub (Mat.smul s.lr DB1) = some B1n :=
    Mat.isub_eq _ _ ⟨Or.inr rfl, Or.inl hb1c.symm⟩
  have hbk : backward s X y = some
      { s with W2 := W2n, b2 := B2n, W1 := W1n, b1 := B1n,
               gradients := some ⟨DW1, DB1, DW2, DB2⟩ } := by
    simp only [backward, hc, Option.bind_eq_bind, Option.some_bind, hD2eq, hdot1, hdot2,
      hD1eq, hdot3, hiW2, hib2, hiW1, hib1]
  refine ⟨_, ⟨DW1, DB1, DW2, DB2⟩, hbk, rfl,
    ⟨hXc, rfl, rfl, rfl, ha1c, rfl, rfl, rfl⟩, ⟨?_, ?_, ?_, ?_⟩,
    ⟨rfl, rfl, ?_, rfl, rfl, ?_, rfl, rfl, ?_, rfl, rfl, ?_⟩, ⟨rfl, rfl, rfl, rfl⟩⟩
  · intro a b ha hb
    show (∑ k ∈ Finset.range cc.a1.r, cc.a1.entry k a * D2.entry k b) / (X.r : ℝ) = _
    rw [ha1r]
    congr 1
    exact Finset.sum_congr rfl fun k hk => by
      rw [hD2e k b (Finset.mem_range.mp hk) hb]
  · intro b hb
    show (∑ k ∈ Finset.range cc.a2.r, D2.entry k b) / (X.r : ℝ) = _
    congr 1
    exact Finset.sum_congr rfl fun k hk => hD2e k b (Finset.mem_range.mp hk) hb
  · intro a b ha hb
    show (∑ k ∈ Finset.range X.r, X.entry k a * D1.entry k b) / (X.r : ℝ) = _
    rw [hXr]
    congr 1
    exact Finset.sum_congr rfl fun k hk => by
      rw [hD1e k b (Finset.mem_range.mp hk) hb]
  · intro b hb
    show (∑ k ∈ Finset.range cc.a2.r, D1.entry k b) / (X.r : ℝ) = _
    congr 1
    exact Finset.sum_congr rfl fun k hk => hD1e k b (Finset.mem_range.mp hk) hb
  · intro a b ha hb
    show s.W1.entry a b - s.lr * DW1.entry (a % X.c) (b % s.W2.r) = _
    rw [hXc, Nat.mod_eq_of_lt ha, Nat.mod_eq_of_lt (hW1c ▸ hb)]
  · intro a b ha hb
    show s.b1.entry a b - s.lr * DB1.entry (a % 1) (b % s.W2.r) = _
    rw [Nat.mod_one, Nat.mod_eq_of_lt (hb1c ▸ hb)]
  · intro a b ha hb
    show s.W2.entry a b - s.lr * DW2.entry (a % cc.a1.c) (b % s.W2.c) = _
    rw [ha1c, Nat.mod_eq_of_lt ha, Nat.mod_eq_of_lt hb]
  · intro a b ha hb
    show s.b2.entry a b - s.lr * DB2.entry (a % 1) (b % s.W2.c) = _
    rw [Nat.mod_one, Nat.mod_eq_of_lt (hb2c ▸ hb)]

theorem backward_frame_aux (s : MLPState) (X y : Mat) (s2 : MLPState)
    (h : backward s X y = some s2) :
    s2.cache = s.cache ∧ s2.lr = s.lr ∧ s2.activation = s.activation ∧
      s2.activation_prime = s.activation_prime ∧ ∃ g, s2.gradients = some g := by
  simp only [backward, Option.bind_eq_bind, Option.bind_eq_some] at h
  obtain ⟨cc, _, h⟩ := h
  obtain ⟨delta2, _, h⟩ := h
  obtain ⟨a1Td2, _, h⟩ := h
  obtain ⟨d2W2T, _, h⟩ := h
  obtain ⟨delta1, _, h⟩ := h
  obtain ⟨xTd1, _, h⟩ := h
  obtain ⟨w2n, _, h⟩ := h
  obtain ⟨b2n, _, h⟩ := h
  obtain ⟨w1n, _, h⟩ := h
  obtain ⟨b1n, _, h⟩ := h
  simp only [Option.some.injEq] at h
  subst h
  exact ⟨rfl, rfl, rfl, rfl, _, rfl⟩

/-! Constructor lemmas: the result of `mlpInit` on each activation string. -/

theorem mlpInit_tanh_eq (stream : ℕ → ℕ → ℝ) (i h o : ℕ) (lr : ℝ) (g : RNG) :
    (mlpInit stream i h o lr "tanh" g).1 =
      some ⟨lr, Real.tanh, fun x => 1 - Real.tanh x ^ 2,
        (nprandn stream (npseed 0) i h).1, npzeros 1 h,
        (nprandn stream (nprandn stream (npseed 0) i h).2 h o).1, npzeros 1 o,
        none, none⟩ := rfl

theorem mlpInit_relu_eq (stream : ℕ → ℕ → ℝ) (i h o : ℕ) (lr : ℝ) (g : RNG) :
    (mlpInit stream i h o lr "relu" g).1 =
      some ⟨lr, fun x => max 0 x, fun x => if x > 0 then 1 else 0,
        (nprandn stream (npseed 0) i h).1, npzeros 1 h,
        (nprandn stream (nprandn stream (npseed 0) i h).2 h o).1, npzeros 1 o,
        none, none⟩ := rfl

theorem mlpInit_sigmoid_eq (stream : ℕ → ℕ → ℝ) (i h o : ℕ) (lr : ℝ) (g : RNG) :
    (mlpInit stream i h o lr "sigmoid" g).1 =
      some ⟨lr, sigmoidFn, fun x => sigmoidFn x * (1 - sigmoidFn x),
        (nprandn stream (npseed 0) i h).1, npzeros 1 h,
        (nprandn stream (nprandn stream (npseed 0) i h).2 h o).1, npzeros 1 o,
        none, none⟩ := rfl

theorem mlpInit_invalid (stream : ℕ → ℕ → ℝ) (i h o : ℕ) (lr : ℝ) (act : String) (g : RNG)
    (h1 : act ≠ "tanh") (h2 : act ≠ "relu") (h3 : act ≠ "sigmoid") :
    (mlpInit stream i h o lr act g).1 = none := by
  simp [mlpInit, h1, h2, h3]

theorem mlpInit_weights (stream : ℕ → ℕ → ℝ) (i h o : ℕ) (lr : ℝ) (act : String) (g : RNG)
    (s : MLPState) (hs : (mlpInit stream i h o lr act g).1 = some s) :
    s.W1 = (nprandn stream (npseed 0) i h).1 ∧
      s.W2 = (nprandn stream (nprandn stream (npseed 0) i h).2 h o).1 := by
  by_cases h1 : act = "tanh"
  · subst h1
    rw [mlpInit_tanh_eq] at hs
    cases hs
    exact ⟨rfl, rfl⟩
  by_cases h2 : act = "relu"
  · subst h2
    rw [mlpInit_relu_eq] at hs
    cases hs
    exact ⟨rfl, rfl⟩
  by_cases h3 : act = "sigmoid"
  · subst h3
    rw [mlpInit_sigmoid_eq] at hs
    cases hs
    exact ⟨rfl, rfl⟩
  rw [mlpInit_invalid stream i h o lr act g h1 h2 h3] at hs
  cases hs

/-- C5: for each activation kind, the activation function and its derivative
selected at construction are exactly those of the table: tanh has
phi(x) = tanh(x) and phi'(x) = 1 - tanh(x)^2; relu has phi(x) = max(0, x)
and phi'(x) = 1 if x > 0 else 0; sigmoid has phi(x) = 1/(1+e^-x) and
phi'(x) = phi(x)*(1 - phi(x)). -/
theorem c5_activation_table (stream : ℕ → ℕ → ℝ) (i h o : ℕ) (lr : ℝ) (g : RNG) :
    (∃ s, (mlpInit stream i h o lr "tanh" g).1 = some s ∧
      (∀ x, s.activation x = Real.tanh x) ∧
      (∀ x, s.activation_prime x = 1 - Real.tanh x ^ 2)) ∧
    (∃ s, (mlpInit stream i h o lr "relu" g).1 = some s ∧
      (∀ x, s.activation x = max 0 x) ∧
      (∀ x, s.activation_prime x = if 0 < x then 1 else 0)) ∧
    (∃ s, (mlpInit stream i h o lr "sigmoid" g).1 = some s ∧
      (∀ x, s.activation x = 1 / (1 + Real.exp (-x))) ∧
      (∀ x, s.activation_prime x = s.activation x * (1 - s.activation x))) :=
  ⟨⟨_, mlpInit_tanh_eq stream i h o lr g, fun _ => rfl, fun _ => rfl⟩,
   ⟨_, mlpInit_relu_eq stream i h o lr g, fun _ => rfl, fun _ => rfl⟩,
   ⟨_, mlpInit_sigmoid_eq stream i h o lr g, fun _ => rfl, fun _ => rfl⟩⟩

/-- C6: construction with an activation_kind outside {tanh, relu, sigmoid}
fails immediately with a construction-time error, and construction with any
of the three supported kinds succeeds; on success both bias vectors b1 and
b2 are all zeros and the weight matrices W1 and W2 hold the successive
draws of the freshly seeded standard-normal generator. -/
theorem c6_construction (stream : ℕ → ℕ → ℝ) (i h o : ℕ) (lr : ℝ) (g : RNG) :
    (∀ act : String, act ≠ "tanh" → act ≠ "relu" → act ≠ "sigmoid" →
      (mlpInit stream i h o lr act g).1 = none) ∧
    (∀ act : String, act = "tanh" ∨ act = "relu" ∨ act = "sigmoid" →
      ∃ s, (mlpInit stream i h o lr act g).1 = some s ∧
        s.b1.r = 1 ∧ s.b1.c = h ∧ (∀ a b, s.b1.entry a b = 0) ∧
        s.b2.r = 1 ∧ s.b2.c = o ∧ (∀ a b, s.b2.entry a b = 0) ∧
        s.W1.r = i ∧ s.W1.c = h ∧
        (∀ a b, s.W1.entry a b = stream 0 (a * h + b)) ∧
        s.W2.r = h ∧ s.W2.c = o ∧
        (∀ a b, s.W2.entry a b = stream 0 (i * h + (a * o + b)))) := by
  constructor
  · intro act h1 h2 h3
    exact mlpInit_invalid stream i h o lr act g h1 h2 h3
  · intro act hv
    have hW1 : ∀ a b, (nprandn stream (npseed 0) i h).1.entry a b = stream 0 (a * h + b) := by
      intro a b
      simp [nprandn, npseed]
    have hW2 : ∀ a b,
        (nprandn stream (nprandn stream (npseed 0) i h).2 h o).1.entry a b =
          stream 0 (i * h + (a * o + b)) := by
      intro a b
      simp [nprandn, npseed]
    rcases hv with rfl | rfl | rfl
    · exact ⟨_, mlpInit_tanh_eq stream i h o lr g, rfl, rfl, fun _ _ => rfl,
        rfl, rfl, fun _ _ => rfl, rfl, rfl, hW1, rfl, rfl, hW2⟩
    · exact ⟨_, mlpInit_relu_eq stream i h o lr g, rfl, rfl, fun _ _ => rfl,
        rfl, rfl, fun _ _ => rfl, rfl, rfl, hW1, rfl, rfl, hW2⟩
    · exact ⟨_, mlpInit_sigmoid_eq stream i h o lr g, rfl, rfl, fun _ _ => rfl,
        rfl, rfl, fun _ _ => rfl, rfl, rfl, hW1, rfl, rfl, hW2⟩

/-- Witness for C6: the unsupported kind "softmax" is rejected while "tanh"
is accepted, at concrete dimensions. -/
theorem c6_construction_witness :
    (mlpInit (fun a b => (a + b : ℝ)) 2 3 1 1 "softmax" ⟨0, 0⟩).1 = none ∧
      ∃ s, (mlpInit (fun a b => (a + b : ℝ)) 2 3 1 1 "tanh" ⟨0, 0⟩).1 = some s := by
  constructor
  · exact (c6_construction (fun a b => (a + b : ℝ)) 2 3 1 1 ⟨0, 0⟩).1 "softmax"
      (by decide) (by decide) (by decide)
  · obtain ⟨s, hs, _⟩ :=
      (c6_construction (fun a b => (a + b : ℝ)) 2 3 1 1 ⟨0, 0⟩).2 "tanh" (Or.inl rfl)
    exact ⟨s, hs⟩

/-- C9: the constructor unconditionally reseeds the global generator with
seed 0 before drawing the initial weights, so any two networks constructed
with the same (input_dim, hidden_dim, output_dim) receive identical initial
W1 and W2 regardless of the generator state left behind by the caller. -/
theorem c9_reseed_determinism (stream : ℕ → ℕ → ℝ) (i h o : ℕ) (lr1 lr2 : ℝ)
    (act1 act2 : String) (g1 g2 : RNG) (s1 s2 : MLPState)
    (h1 : (mlpInit stream i h o lr1 act1 g1).1 = some s1)
    (h2 : (mlpInit stream i h o lr2 act2 g2).1 = some s2) :
    s1.W1 = s2.W1 ∧ s1.W2 = s2.W2 := by
  obtain ⟨ha, hb⟩ := mlpInit_weights stream i h o lr1 act1 g1 s1 h1
  obtain ⟨hc, hd⟩ := mlpInit_weights stream i h o lr2 act2 g2 s2 h2
  exact ⟨ha.trans hc.symm, hb.trans hd.symm⟩

/-- Witness for C9: two constructions with different learning rates,
activation kinds and prior generator states get the same weights. -/
theorem c9_reseed_determinism_witness :
    ∃ s1 s2,
      (mlpInit (fun a b => (a + b : ℝ)) 2 3 1 1 "tanh" ⟨5, 7⟩).1 = some s1 ∧
      (mlpInit (fun a b => (a + b : ℝ)) 2 3 1 2 "relu" ⟨9, 4⟩).1 = some s2 ∧
      s1.W1 = s2.W1 ∧ s1.W2 = s2.W2 := by
  refine ⟨_, _, mlpInit_tanh_eq (fun a b => (a + b : ℝ)) 2 3 1 1 ⟨5, 7⟩,
    mlpInit_relu_eq (fun a b => (a + b : ℝ)) 2 3 1 2 ⟨9, 4⟩, ?_⟩
  exact c9_reseed_determinism (fun a b => (a + b : ℝ)) 2 3 1 1 2 "tanh" "relu" ⟨5, 7⟩ ⟨9, 4⟩ _ _
    (mlpInit_tanh_eq (fun a b => (a + b : ℝ)) 2 3 1 1 ⟨5, 7⟩)
    (mlpInit_relu_eq (fun a b => (a + b : ℝ)) 2 3 1 2 ⟨9, 4⟩)

/-- C1: for every input matrix X of shape [N x input_dim] and label matrix
y of shape [N x output_dim], after a forward(X) call, backward(X, y)
computes the gradients exactly as: delta2 = A2 - y (output activation
derivative NOT applied), dW2 = A1^T . delta2 / N, db2 =
columnwise-sum(delta2) / N, delta1 = (delta2 . W2^T) elementwise-times
phi'(Z1) at the cached pre-activation Z1, dW1 = X^T . delta1 / N, db1 =
columnwise-sum(delta1) / N, with A1, A2, Z1 the tensors cached by the
preceding forward call and all gradients computed from the pre-update
parameter values. -/
theorem c1_backward_gradient_formulas (s : MLPState) (X y : Mat) (N : ℕ)
    (hXr : X.r = N) (hXc : X.c = s.W1.r) (hb1r : s.b1.r = 1)
    (hb1c : s.b1.c = s.W1.c) (hW2r : s.W2.r = s.W1.c) (hb2r : s.b2.r = 1)
    (hb2c : s.b2.c = s.W2.c) (hyr : y.r = N) (hyc : y.c = s.W2.c) :
    ∃ s1 A2 cc s2 g,
      forward s X = some (s1, A2) ∧ s1.cache = some cc ∧
      backward s1 X y = some s2 ∧ s2.gradients = some g ∧
      (∀ a b, a < s.W2.r → b < s.W2.c → g.dW2.entry a b = specDW2 cc y N a b) ∧
      (∀ b, b < s.W2.c → g.db2.entry 0 b = specDB2 cc y N b) ∧
      (∀ a b, a < s.W1.r → b < s.W2.r → g.dW1.entry a b = specDW1 s cc X y N a b) ∧
      (∀ b, b < s.W2.r → g.db1.entry 0 b = specDB1 s cc y N b) := by
  obtain ⟨cc, hfwd, hz1r, hz1c, ha1r, ha1c, hz2r, hz2c, ha2r, ha2c, _, _, _, _⟩ :=
    forward_eq s X hXc hb1r hb1c hW2r hb2r hb2c
  obtain ⟨s2, g, hbk, hg, _, ⟨hdW2, hdb2, hdW1, hdb1⟩, _, _⟩ :=
    backward_eq { s with cache := some cc } cc X y rfl
      (ha1r.trans ha2r.symm) (hz1r.trans ha2r.symm)
      (ha1c.trans hW2r.symm) (hz1c.trans hW2r.symm) ha2c
      (Or.inl (by rw [hyr, ← hXr, ha2r, hXr]))
      hyc (by rw [hXr, ← hXr, ha2r, hXr]) hXc hW2r.symm
      (hb1c.trans hW2r.symm) hb2c
  have hNc : cc.a2.r = N := by rw [ha2r, hXr]
  have hbd2 : ∀ k j, k < N → bdelta2 cc y k j = specDelta2 cc y k j := by
    intro k j hk
    unfold bdelta2 specDelta2
    rw [hyr, Nat.mod_eq_of_lt hk]
  have hbd1 : ∀ k j, k < N →
      bdelta1 { s with cache := some cc } cc y k j = specDelta1 s cc y k j := by
    intro k j hk
    unfold bdelta1 specDelta1
    have h1 : (∑ l ∈ Finset.range s.W2.c, bdelta2 cc y k l * s.W2.entry j l) =
        ∑ l ∈ Finset.range s.W2.c, specDelta2 cc y k l * s.W2.entry j l :=
      Finset.sum_congr rfl fun l _ => by rw [hbd2 k l hk]
    exact congrArg (fun t => t * s.activation_prime (cc.z1.entry k j)) h1
  refine ⟨_, _, cc, s2, g, hfwd, rfl, hbk, hg, ?_, ?_, ?_, ?_⟩
  · intro a b ha hb
    rw [hdW2 a b ha hb, hNc, hXr]
    unfold specDW2
    congr 1
    exact Finset.sum_congr rfl fun k hk => by rw [hbd2 k b (Finset.mem_range.mp hk)]
  · intro b hb
    rw [hdb2 b hb, hNc, hXr]
    unfold specDB2
    congr 1
    exact Finset.sum_congr rfl fun k hk => hbd2 k b (Finset.mem_range.mp hk)
  · intro a b ha hb
    rw [hdW1 a b ha hb, hNc, hXr]
    unfold specDW1
    congr 1
    exact Finset.sum_congr rfl fun k hk => by rw [hbd1 k b (Finset.mem_range.mp hk)]
  · intro b hb
    rw [hdb1 b hb, hNc, hXr]
    unfold specDB1
    congr 1
    exact Finset.sum_congr rfl fun k hk => hbd1 k b (Finset.mem_range.mp hk)

/-- Witness for C1: concrete forward-then-backward run on the sample
network with matching shapes. -/
theorem c1_backward_gradient_formulas_witness :
    ∃ s1 A2 cc s2 g,
      forward sampleNet (npzeros 2 2) = some (s1, A2) ∧ s1.cache = some cc ∧
      backward s1 (npzeros 2 2) (npzeros 2 1) = some s2 ∧ s2.gradients = some g := by
  obtain ⟨s1, A2, cc, s2, g, h1, h2, h3, h4, _⟩ :=
    c1_backward_gradient_formulas sampleNet (npzeros 2 2) (npzeros 2 1) 2
      rfl rfl rfl rfl rfl rfl rfl rfl rfl
  exact ⟨s1, A2, cc, s2, g, h1, h2, h3, h4⟩

/-- C3: after any single backward call with learning_rate > 0, each of the
four parameters equals its previous value minus learning_rate times the
corresponding gradient computed in that call, componentwise with exact
equality, and all four parameters are updated. -/
theorem c3_update_rule (s : MLPState) (cc : Cache) (X y : Mat)
    (hlr : 0 < s.lr) (hc : s.cache = some cc)
    (ha1r : cc.a1.r = cc.a2.r) (hz1r : cc.z1.r = cc.a2.r)
    (ha1c : cc.a1.c = s.W2.r) (hz1c : cc.z1.c = s.W2.r) (ha2c : cc.a2.c = s.W2.c)
    (hyr : y.r = cc.a2.r) (hyc : y.c = s.W2.c)
    (hXr : X.r = cc.a2.r) (hXc : X.c = s.W1.r) (hW1c : s.W1.c = s.W2.r)
    (hb1c : s.b1.c = s.W2.r) (hb2c : s.b2.c = s.W2.c) :
    ∃ s2 g, backward s X y = some s2 ∧ s2.gradients = some g ∧
      s2.W1.r = s.W1.r ∧ s2.W1.c = s.W1.c ∧
      (∀ a b, a < s.W1.r → b < s.W1.c →
        s2.W1.entry a b = s.W1.entry a b - s.lr * g.dW1.entry a b) ∧
      s2.b1.r = s.b1.r ∧ s2.b1.c = s.b1.c ∧
      (∀ a b, a < s.b1.r → b < s.b1.c →
        s2.b1.entry a b = s.b1.entry a b - s.lr * g.db1.entry 0 b) ∧
      s2.W2.r = s.W2.r ∧ s2.W2.c = s.W2.c ∧
      (∀ a b, a < s.W2.r → b < s.W2.c →
        s2.W2.entry a b = s.W2.entry a b - s.lr * g.dW2.entry a b) ∧
      s2.b2.r = s.b2.r ∧ s2.b2.c = s.b2.c ∧
      (∀ a b, a < s.b2.r → b < s.b2.c →
        s2.b2.entry a b = s.b2.entry a b - s.lr * g.db2.entry 0 b) := by
  obtain ⟨s2, g, hbk, hg, _, _, hupd, _⟩ :=
    backward_eq s cc X y hc ha1r hz1r ha1c hz1c ha2c (Or.inl hyr) hyc hXr hXc hW1c hb1c hb2c
  exact ⟨s2, g, hbk, hg, hupd.1, hupd.2.1, hupd.2.2.1, hupd.2.2.2.1, hupd.2.2.2.2.1,
    hupd.2.2.2.2.2.1, hupd.2.2.2.2.2.2.1, hupd.2.2.2.2.2.2.2.1, hupd.2.2.2.2.2.2.2.2.1,
    hupd.2.2.2.2.2.2.2.2.2.1, hupd.2.2.2.2.2.2.2.2.2.2.1, hupd.2.2.2.2.2.2.2.2.2.2.2⟩

/-- Witness for C3: concrete backward call on the cached sample network. -/
theorem c3_update_rule_witness :
    (0 : ℝ) < sampleNetC.lr ∧
      ∃ s2 g, backward sampleNetC (npzeros 2 2) (npzeros 2 1) = some s2 ∧
        s2.gradients = some g := by
  have hlr : (0 : ℝ) < sampleNetC.lr := by
    show (0 : ℝ) < 1
    norm_num
  refine ⟨hlr, ?_⟩
  obtain ⟨s2, g, hbk, hg, _⟩ :=
    c3_update_rule sampleNetC ⟨npzeros 2 2, npzeros 2 2, npzeros 2 1, npzeros 2 1⟩
      (npzeros 2 2) (npzeros 2 1) hlr rfl rfl rfl rfl rfl rfl rfl rfl rfl rfl rfl rfl rfl
  exact ⟨s2, g, hbk, hg⟩

/-- C7: for all valid dimensions and every N >= 1, forward(X) on an X of
shape [N x input_dim] returns a matrix of shape [N x output_dim], and the
four gradient tensors produced by backward have exactly the shapes of
their corresponding parameters. -/
theorem c7_shape_invariants (s : MLPState) (X y : Mat) (N : ℕ) (hN : 1 ≤ N)
    (hXr : X.r = N) (hXc : X.c = s.W1.r) (hb1r : s.b1.r = 1)
    (hb1c : s.b1.c = s.W1.c) (hW2r : s.W2.r = s.W1.c) (hb2r : s.b2.r = 1)
    (hb2c : s.b2.c = s.W2.c) (hyr : y.r = N) (hyc : y.c = s.W2.c) :
    ∃ s1 A2, forward s X = some (s1, A2) ∧ A2.r = N ∧ A2.c = s.W2.c ∧
      ∃ s2 g, backward s1 X y = some s2 ∧ s2.gradients = some g ∧
        g.dW1.r = s.W1.r ∧ g.dW1.c = s.W1.c ∧
        g.db1.r = s.b1.r ∧ g.db1.c = s.b1.c ∧
        g.dW2.r = s.W2.r ∧ g.dW2.c = s.W2.c ∧
        g.db2.r = s.b2.r ∧ g.db2.c = s.b2.c := by
  obtain ⟨cc, hfwd, hz1r, hz1c, ha1r, ha1c, hz2r, hz2c, ha2r, ha2c, _, _, _, _⟩ :=
    forward_eq s X hXc hb1r hb1c hW2r hb2r hb2c
  obtain ⟨s2, g, hbk, hg, hsh, _, _, _⟩ :=
    backward_eq { s with cache := some cc } cc X y rfl
      (ha1r.trans ha2r.symm) (hz1r.trans ha2r.symm)
      (ha1c.trans hW2r.symm) (hz1c.trans hW2r.symm) ha2c
      (Or.inl (by rw [hyr, ← hXr, ha2r, hXr]))
      hyc (by rw [hXr, ← hXr, ha2r, hXr]) hXc hW2r.symm
      (hb1c.trans hW2r.symm) hb2c
  refine ⟨_, _, hfwd, by rw [ha2r, hXr], ha2c, s2, g, hbk, hg, ?_, ?_, ?_, ?_, ?_, ?_, ?_, ?_⟩
  · exact hsh.1
  · exact hsh.2.1.trans hW2r
  · exact hsh.2.2.1.trans hb1r.symm
  · exact hsh.2.2.2.1.trans (hb1c.trans hW2r.symm).symm
  · exact hsh.2.2.2.2.1
  · exact hsh.2.2.2.2.2.1
  · exact hsh.2.2.2.2.2.2.1.trans hb2r.symm
  · exact hsh.2.2.2.2.2.2.2.trans hb2c.symm

/-- Witness for C7: concrete shapes on the sample network. -/
theorem c7_shape_invariants_witness :
    ∃ s1 A2, forward sampleNet (npzeros 2 2) = some (s1, A2) ∧ A2.r = 2 ∧ A2.c = 1 := by
  obtain ⟨s1, A2, h1, h2, h3, _⟩ :=
    c7_shape_invariants sampleNet (npzeros 2 2) (npzeros 2 1) 2 (by decide)
      rfl rfl rfl rfl rfl rfl rfl rfl rfl
  exact ⟨s1, A2, h1, h2, h3⟩

/-- C10: backward(X, y) leaves the forward cache unchanged and mutates
only the four parameters and the stored gradient record: the cache, the
learning rate and the activation functions after a successful backward
call equal their values immediately before it, and the gradient record is
(re)populated. -/
theorem c10_backward_cache_frame (s : MLPState) (X y : Mat) (s2 : MLPState)
    (h : backward s X y = some s2) :
    s2.cache = s.cache ∧ s2.lr = s.lr ∧ s2.activation = s.activation ∧
      s2.activation_prime = s.activation_prime ∧ ∃ g, s2.gradients = some g :=
  backward_frame_aux s X y s2 h

/-- Witness for C10: a concrete successful backward call keeps the cache. -/
theorem c10_backward_cache_frame_witness :
    ∃ s2, backward sampleNetC (npzeros 2 2) (npzeros 2 1) = some s2 ∧
      s2.cache = sampleNetC.cache := by
  obtain ⟨s2, g, hbk, _⟩ :=
    backward_eq sampleNetC ⟨npzeros 2 2, npzeros 2 2, npzeros 2 1, npzeros 2 1⟩
      (npzeros 2 2) (npzeros 2 1) rfl rfl rfl rfl rfl rfl (Or.inl rfl) rfl rfl rfl rfl rfl rfl
  exact ⟨s2, hbk, (c10_backward_cache_frame sampleNetC _ _ s2 hbk).1⟩

/-- Counterexample to C4: a backward call whose label matrix has 1 row
against a cached forward batch of 2 rows (a row-count mismatch) does not
fail — numpy broadcasting stretches y across the batch and the call
succeeds (and goes on to update the parameters).  The network is built by
the constructor itself (relu, all stream draws 0) and forward is run on a
2x2 input first, exactly as the claim prescribes. -/
theorem c4_counterexample :
    ∃ s s1 A2 s2,
      (mlpInit (fun _ _ => (0 : ℝ)) 2 2 1 1 "relu" ⟨0, 0⟩).1 = some s ∧
      forward s (npzeros 2 2) = some (s1, A2) ∧
      (npzeros 1 1).r ≠ (npzeros 2 2).r ∧
      backward s1 (npzeros 2 2) (npzeros 1 1) = some s2 := by
  set str0 : ℕ → ℕ → ℝ := fun _ _ => 0 with hstr0
  set R : MLPState := ⟨1, fun x => max 0 x, fun x => if x > 0 then 1 else 0,
    (nprandn str0 (npseed 0) 2 2).1, npzeros 1 2,
    (nprandn str0 (nprandn str0 (npseed 0) 2 2).2 2 1).1, npzeros 1 1,
    none, none⟩ with hR
  have hs : (mlpInit str0 2 2 1 1 "relu" ⟨0, 0⟩).1 = some R :=
    mlpInit_relu_eq str0 2 2 1 1 ⟨0, 0⟩
  obtain ⟨cc, hfwd, hz1r, hz1c, ha1r, ha1c, _, _, ha2r, ha2c, _, _, _, _⟩ :=
    forward_eq R (npzeros 2 2) rfl rfl rfl rfl rfl rfl
  obtain ⟨s2, g, hbk, _⟩ :=
    backward_eq { R with cache := some cc } cc (npzeros 2 2) (npzeros 1 1) rfl
      (ha1r.trans ha2r.symm) (hz1r.trans ha2r.symm) ha1c hz1c ha2c
      (Or.inr rfl) rfl ha2r.symm rfl rfl rfl rfl
  exact ⟨R, _, _, s2, hs, hfwd, by decide, hbk⟩

/-- C4 as amended: with well-formed column shapes, backward(X, y) fails
with the shape error (modelled as `none`; in the source every such numpy
error is raised at lines 53-60, before the first parameter update, so the
parameters are left unmodified) exactly when the mismatch is not rescued
by numpy broadcasting: when X's row count differs from the cached batch
size, or y's row count differs from it and is not 1.  When y has exactly
one row and X matches the batch, the call succeeds by broadcasting y even
though y's row count does not match the batch. -/
theorem c4_amended_mismatch (s : MLPState) (cc : Cache) (X y : Mat)
    (hc : s.cache = some cc)
    (ha1r : cc.a1.r = cc.a2.r) (hz1r : cc.z1.r = cc.a2.r)
    (ha1c : cc.a1.c = s.W2.r) (hz1c : cc.z1.c = s.W2.r) (ha2c : cc.a2.c = s.W2.c)
    (hyc : y.c = s.W2.c) (hXc : X.c = s.W1.r) (hW1c : s.W1.c = s.W2.r)
    (hb1c : s.b1.c = s.W2.r) (hb2c : s.b2.c = s.W2.c) :
    ((X.r ≠ cc.a2.r ∨ (y.r ≠ cc.a2.r ∧ y.r ≠ 1)) → backward s X y = none) ∧
      ((X.r = cc.a2.r ∧ (y.r = cc.a2.r ∨ y.r = 1)) → ∃ s2, backward s X y = some s2) := by
  constructor
  · intro hfail
    by_cases hy : y.r = cc.a2.r ∨ y.r = 1
    · have hXne : X.r ≠ cc.a2.r := by
        rcases hfail with h | ⟨h1, h2⟩
        · exact h
        · rcases hy with h | h
          · exact absurd h h1
          · exact absurd h h2
      have hbr2 : Mat.broadcastDim cc.a2.r y.r = some cc.a2.r := by
        rcases hy with hE | h1
        · rw [hE]; exact Mat.broadcastDim_self _
        · rw [h1]; exact Mat.broadcastDim_one_right _
      have hbc2 : Mat.broadcastDim cc.a2.c y.c = some s.W2.c := by
        rw [ha2c, hyc]; exact Mat.broadcastDim_self _
      set D2 : Mat := ⟨cc.a2.r, s.W2.c, fun i j =>
        cc.a2.entry (i % cc.a2.r) (j % cc.a2.c) - y.entry (i % y.r) (j % y.c)⟩ with hD2def
      have hD2eq : Mat.bop (fun a b => a - b) cc.a2 y = some D2 :=
        Mat.bop_eq _ cc.a2 y cc.a2.r s.W2.c hbr2 hbc2
      set A1TD2 : Mat := ⟨cc.a1.c, s.W2.c, fun i j =>
        ∑ k ∈ Finset.range cc.a1.r, cc.a1.entry k i * D2.entry k j⟩ with hA1TD2
      have hdot1 : cc.a1.transpose.dot D2 = some A1TD2 := Mat.dot_eq _ _ ha1r
      set D2W2T : Mat := ⟨cc.a2.r, s.W2.r, fun i j =>
        ∑ k ∈ Finset.range s.W2.c, D2.entry i k * s.W2.entry j k⟩ with hD2W2T
      have hdot2 : D2.dot s.W2.transpose = some D2W2T := Mat.dot_eq _ _ rfl
      have hbr1 : Mat.broadcastDim D2W2T.r (cc.z1.map s.activation_prime).r =
          some cc.a2.r := by
        show Mat.broadcastDim cc.a2.r cc.z1.r = some cc.a2.r
        rw [hz1r]; exact Mat.broadcastDim_self _
      have hbc1 : Mat.broadcastDim D2W2T.c (cc.z1.map s.activation_prime).c =
          some s.W2.r := by
        show Mat.broadcastDim s.W2.r cc.z1.c = some s.W2.r
        rw [hz1c]; exact Mat.broadcastDim_self _
      set D1 : Mat := ⟨cc.a2.r, s.W2.r, fun i j =>
        D2W2T.entry (i % cc.a2.r) (j % s.W2.r) *
          s.activation_prime (cc.z1.entry (i % cc.z1.r) (j % cc.z1.c))⟩ with hD1def
      have hD1eq : Mat.bop (fun a b => a * b) D2W2T (cc.z1.map s.activation_prime) =
          some D1 := Mat.bop_eq _ _ _ cc.a2.r s.W2.r hbr1 hbc1
      have hdot3 : X.transpose.dot D1 = none := Mat.dot_none _ _ hXne
      simp only [backward, hc, Option.bind_eq_bind, Option.some_bind, hD2eq, hdot1, hdot2,
        hD1eq, hdot3, Option.none_bind]
    · push_neg at hy
      obtain ⟨hy1, hy2⟩ := hy
      by_cases hNc1 : cc.a2.r = 1
      · have hbr2 : Mat.broadcastDim cc.a2.r y.r = some y.r := by
          rw [hNc1]; exact Mat.broadcastDim_one_left _
        have hbc2 : Mat.broadcastDim cc.a2.c y.c = some s.W2.c := by
          rw [ha2c, hyc]; exact Mat.broadcastDim_self _
        set D2 : Mat := ⟨y.r, s.W2.c, fun i j =>
          cc.a2.entry (i % cc.a2.r) (j % cc.a2.c) - y.entry (i % y.r) (j % y.c)⟩ with hD2def
        have hD2eq : Mat.bop (fun a b => a - b) cc.a2 y = some D2 :=
          Mat.bop_eq _ cc.a2 y y.r s.W2.c hbr2 hbc2
        have hdot1 : cc.a1.transpose.dot D2 = none :=
          Mat.dot_none _ _ fun hEq => hy2 (hEq.symm.trans (ha1r.trans hNc1))
        simp only [backward, hc, Option.bind_eq_bind, Option.some_bind, hD2eq, hdot1,
          Option.none_bind]
      · have hbr2 : Mat.broadcastDim cc.a2.r y.r = none :=
          Mat.broadcastDim_none _ _ (fun h => hy1 h.symm) hNc1 hy2
        have hD2none : Mat.bop (fun a b => a - b) cc.a2 y = none :=
          Mat.bop_none_rows _ cc.a2 y hbr2
        simp only [backward, hc, Option.bind_eq_bind, Option.some_bind, hD2none,
          Option.none_bind]
  · rintro ⟨hX, hy⟩
    obtain ⟨s2, g, hbk, _⟩ :=
      backward_eq s cc X y hc ha1r hz1r ha1c hz1c ha2c hy hyc hX hXc hW1c hb1c hb2c
    exact ⟨s2, hbk⟩

/-- Witness for the amended C4: on the cached sample network (batch 2), a
3-row label matrix makes backward fail, while a matching 2-row label
matrix succeeds. -/
theorem c4_amended_mismatch_witness :
    backward sampleNetC (npzeros 2 2) (npzeros 3 1) = none ∧
      ∃ s2, backward sampleNetC (npzeros 2 2) (npzeros 2 1) = some s2 := by
  constructor
  · exact (c4_amended_mismatch sampleNetC
      ⟨npzeros 2 2, npzeros 2 2, npzeros 2 1, npzeros 2 1⟩
      (npzeros 2 2) (npzeros 3 1) rfl rfl rfl rfl rfl rfl rfl rfl rfl rfl rfl).1
      (Or.inr ⟨by decide, by decide⟩)
  · exact (c4_amended_mismatch sampleNetC
      ⟨npzeros 2 2, npzeros 2 2, npzeros 2 1, npzeros 2 1⟩
      (npzeros 2 2) (npzeros 2 1) rfl rfl rfl rfl rfl rfl rfl rfl rfl rfl rfl).2
      ⟨rfl, Or.inl rfl⟩

end NeuralNetworks
